import Mathlib

/-!
Verification development for the context-retrieval / prompt-assembly engine:
a shallow embedding in Lean 4 of `src/rag_engine.py`, `src/vector_db_populator.py`
and `src/chat_manager.py`, with theorems settling the specification claims.
-/

set_option autoImplicit false

namespace RagSpec

/-! ## ContextCache (rag_engine.py, class ContextCache)

Wall-clock instants (`datetime.now()`) are modelled as an integer timeline;
`datetime.now() - timestamp > timedelta(seconds=ttl)` becomes `now - t > ttl`
over `Int`.  The Python `dict` is modelled as an association list in insertion
order, which is exactly the iteration order Python guarantees. -/

abbrev Timestamp := Int

/-- Models `ContextCache._generate_key`: the md5 fingerprint of the string
`f"{query}:{top_k}"`.  The hash is modelled by its pre-image string (a hash
collision is the one behavior this abstracts away). -/
def generate_key (query : String) (top_k : Nat) : String :=
  query ++ ":" ++ toString top_k

/-- Entries of the Python dict `self.cache`, in insertion order.
Each entry is `(key, (results, insertedAt))`. -/
abbrev CacheEntries (α : Type) := List (String × α × Timestamp)

/-- Models `key in cache` / `cache[key]` (first — and in a dict, only —
entry with the given key). -/
def lookupKey {α : Type} (key : String) : CacheEntries α → Option (α × Timestamp)
  | [] => none
  | e :: es => if e.1 = key then some e.2 else lookupKey key es

/-- Models `del cache[key]`: removes the (unique) entry with the given key. -/
def eraseKey {α : Type} (key : String) : CacheEntries α → CacheEntries α
  | [] => []
  | e :: es => if e.1 = key then es else e :: eraseKey key es

/-- Models `cache[key] = v`: replaces the value in place if the key is live,
otherwise appends the new entry (Python dicts keep insertion order). -/
def insertKey {α : Type} (key : String) (v : α × Timestamp) :
    CacheEntries α → CacheEntries α
  | [] => [(key, v)]
  | e :: es => if e.1 = key then (key, v) :: es else e :: insertKey key v es

/-- Models `min(cache.keys(), key=lambda k: cache[k][1])` (as the full entry):
the `min` of Python keeps the first element attaining the minimum. -/
def oldestEntry {α : Type} : CacheEntries α → Option (String × α × Timestamp)
  | [] => none
  | e :: es => some (es.foldl (fun b x => if x.2.2 < b.2.2 then x else b) e)

/-- The cache object of `ContextCache.__init__`. -/
structure ContextCache (α : Type) where
  ttl_seconds : Int
  max_size : Nat
  cache : CacheEntries α

/-- Models `ContextCache.get(query, top_k)` at instant `now`; returns the
hit/miss outcome together with the post-state (lazy expiry may delete). -/
def ContextCache.get {α : Type} (c : ContextCache α) (query : String) (top_k : Nat)
    (now : Timestamp) : Option α × ContextCache α :=
  let key := generate_key query top_k
  match lookupKey key c.cache with
  | none => (none, c)
  | some (results, t) =>
    if now - t > c.ttl_seconds then (none, { c with cache := eraseKey key c.cache })
    else (some results, c)

/-- Models `ContextCache.set(query, top_k, results)` at instant `now`:
if the dict already holds `max_size` (or more) entries, the entry with the
smallest `insertedAt` is deleted, then the new value is stored.
(When the dict is empty the `min` call of Python would raise; that corner is
unreachable for `max_size ≥ 1` and modelled as a no-op.) -/
def ContextCache.set {α : Type} (c : ContextCache α) (query : String) (top_k : Nat)
    (results : α) (now : Timestamp) : ContextCache α :=
  let key := generate_key query top_k
  let pruned :=
    if c.max_size ≤ c.cache.length then
      match oldestEntry c.cache with
      | some e => eraseKey e.1 c.cache
      | none => c.cache
    else c.cache
  { c with cache := insertKey key (results, now) pruned }

/-- One call to `set`, as data (used to state claims about call sequences). -/
structure SetCall (α : Type) where
  query : String
  top_k : Nat
  results : α
  now : Timestamp

def SetCall.key {α : Type} (op : SetCall α) : String :=
  generate_key op.query op.top_k

/-- The cache entry a `set` call produces. -/
def SetCall.entry {α : Type} (op : SetCall α) : String × α × Timestamp :=
  (op.key, op.results, op.now)

/-- A sequence of `set` calls, performed left to right. -/
def setAll {α : Type} (c : ContextCache α) (ops : List (SetCall α)) : ContextCache α :=
  ops.foldl (fun acc op => acc.set op.query op.top_k op.results op.now) c

/-! ### Association-list lemmas -/

theorem lookupKey_insert_self {α : Type} (key : String) (v : α × Timestamp)
    (l : CacheEntries α) : lookupKey key (insertKey key v l) = some v := by
  induction l with
  | nil => simp [insertKey, lookupKey]
  | cons e es ih =>
    by_cases h : e.1 = key
    · simp [insertKey, lookupKey, h]
    · simp [insertKey, lookupKey, h, ih]

theorem lookupKey_insert_ne {α : Type} (k' key : String) (v : α × Timestamp)
    (l : CacheEntries α) (h : k' ≠ key) :
    lookupKey k' (insertKey key v l) = lookupKey k' l := by
  have h2 : key ≠ k' := Ne.symm h
  induction l with
  | nil => simp [insertKey, lookupKey, h2]
  | cons e es ih =>
    by_cases he : e.1 = key
    · simp [insertKey, lookupKey, he, h2]
    · by_cases he' : e.1 = k'
      · simp [insertKey, lookupKey, he, he', h]
      · simp [insertKey, lookupKey, he, he', ih]

theorem insertKey_of_not_mem {α : Type} (key : String) (v : α × Timestamp)
    (l : CacheEntries α) (h : key ∉ l.map Prod.fst) :
    insertKey key v l = l ++ [(key, v)] := by
  induction l with
  | nil => simp [insertKey]
  | cons e es ih =>
    simp only [List.map_cons, List.mem_cons] at h
    push_neg at h
    have he : e.1 ≠ key := Ne.symm h.1
    simp [insertKey, he, ih h.2]

theorem length_insertKey_of_mem {α : Type} (key : String) (v : α × Timestamp)
    (l : CacheEntries α) (h : key ∈ l.map Prod.fst) :
    (insertKey key v l).length = l.length := by
  induction l with
  | nil => simp at h
  | cons e es ih =>
    by_cases he : e.1 = key
    · simp [insertKey, he]
    · simp only [List.map_cons, List.mem_cons] at h
      rcases h with h | h

      · exact absurd h.symm he
      · simp [insertKey, he, ih h]

theorem length_insertKey_le {α : Type} (key : String) (v : α × Timestamp)
    (l : CacheEntries α) : (insertKey key v l).length ≤ l.length + 1 := by
  induction l with
  | nil => simp [insertKey]
  | cons e es ih =>
    by_cases he : e.1 = key
    · simp [insertKey, he]
    · simp only [insertKey, he, if_false, List.length_cons]
      omega

theorem length_eraseKey_of_mem {α : Type} (key : String) (l : CacheEntries α)
    (h : key ∈ l.map Prod.fst) : (eraseKey key l).length + 1 = l.length := by
  induction l with
  | nil => simp at h
  | cons e es ih =>
    by_cases he : e.1 = key
    · simp [eraseKey, he]
    · simp only [List.map_cons, List.mem_cons] at h
      rcases h with h | h
      · exact absurd h.symm he
      · simp [eraseKey, he, ih h]

theorem lookupKey_eraseKey_ne {α : Type} (k' key : String) (l : CacheEntries α)
    (h : k' ≠ key) : lookupKey k' (eraseKey key l) = lookupKey k' l := by
  have h2 : key ≠ k' := Ne.symm h
  induction l with
  | nil => simp [eraseKey]
  | cons e es ih =>
    by_cases he : e.1 = key
    · simp [eraseKey, lookupKey, he, h2]
    · by_cases he' : e.1 = k'
      · simp [eraseKey, lookupKey, he, he', h]
      · simp [eraseKey, lookupKey, he, he', ih]

theorem lookupKey_eq_none_of_not_mem {α : Type} (key : String) (l : CacheEntries α)
    (h : key ∉ l.map Prod.fst) : lookupKey key l = none := by
  induction l with
  | nil => simp [lookupKey]
  | cons e es ih =>
    simp only [List.map_cons, List.mem_cons] at h
    push_neg at h
    have he : e.1 ≠ key := Ne.symm h.1
    simp [lookupKey, he, ih h.2]

theorem mem_of_lookupKey_eq_some {α : Type} (key : String) (l : CacheEntries α)
    (v : α × Timestamp) (h : lookupKey key l = some v) : key ∈ l.map Prod.fst := by
  induction l with
  | nil => simp [lookupKey] at h
  | cons e es ih =>
    by_cases he : e.1 = key
    · simp [he]
    · simp only [lookupKey, he, if_false] at h
      simp [ih h]

theorem lookupKey_eraseKey_self {α : Type} (key : String) (l : CacheEntries α)
    (hnd : (l.map Prod.fst).Nodup) : lookupKey key (eraseKey key l) = none := by
  induction l with
  | nil => simp [eraseKey, lookupKey]
  | cons e es ih =>
    simp only [List.map_cons, List.nodup_cons] at hnd
    by_cases he : e.1 = key
    · simp only [eraseKey, he, if_true]
      exact lookupKey_eq_none_of_not_mem key es (he ▸ hnd.1)
    · simp [eraseKey, lookupKey, he, ih hnd.2]

theorem oldestEntry_mem {α : Type} (l : CacheEntries α) (e : String × α × Timestamp)
    (h : oldestEntry l = some e) : e ∈ l := by
  match l with
  | [] => simp [oldestEntry] at h
  | x :: xs =>
    simp only [oldestEntry, Option.some_inj] at h
    have aux : ∀ (ys : CacheEntries α) (b : String × α × Timestamp),
        ys.foldl (fun b x => if x.2.2 < b.2.2 then x else b) b ∈ b :: ys := by
      intro ys
      induction ys with
      | nil => intro b; simp
      | cons y ys ih =>
        intro b
        simp only [List.foldl_cons]
        rcases List.mem_cons.mp (ih (if y.2.2 < b.2.2 then y else b)) with h' | h'
        · rw [h']
          by_cases hy : y.2.2 < b.2.2
          · simp [hy]
          · simp [hy]
        · exact List.mem_cons_of_mem _ (List.mem_cons_of_mem _ h')
    exact h ▸ aux xs x

theorem oldestEntry_head {α : Type} (e : String × α × Timestamp) (es : CacheEntries α)
    (h : ∀ x ∈ es, e.2.2 ≤ x.2.2) : oldestEntry (e :: es) = some e := by
  simp only [oldestEntry, Option.some_inj]
  induction es with
  | nil => simp
  | cons x xs ih =>
    have hx : ¬ x.2.2 < e.2.2 := not_lt.mpr (h x (by simp))
    simp only [List.foldl_cons, hx, if_false]
    exact ih (fun y hy => h y (by simp [hy]))

theorem oldestEntry_isSome {α : Type} (l : CacheEntries α) (h : l ≠ []) :
    ∃ e, oldestEntry l = some e := by
  match l with
  | [] => exact absurd rfl h
  | x :: xs => exact ⟨_, rfl⟩

/-! ### Behavior of `ContextCache.set` -/

theorem set_ttl {α : Type} (c : ContextCache α) (q : String) (k : Nat) (R : α)
    (now : Timestamp) : (c.set q k R now).ttl_seconds = c.ttl_seconds := rfl

theorem set_max {α : Type} (c : ContextCache α) (q : String) (k : Nat) (R : α)
    (now : Timestamp) : (c.set q k R now).max_size = c.max_size := rfl

/-- Below capacity with a fresh key, `set` appends the new entry. -/
theorem set_cache_of_room {α : Type} (c : ContextCache α) (q : String) (k : Nat)
    (R : α) (now : Timestamp)
    (hroom : c.cache.length < c.max_size)
    (hfresh : generate_key q k ∉ c.cache.map Prod.fst) :
    (c.set q k R now).cache = c.cache ++ [(generate_key q k, R, now)] := by
  have hc : ¬ c.max_size ≤ c.cache.length := not_le.mpr hroom
  simp only [ContextCache.set, hc, if_false]
  exact insertKey_of_not_mem _ _ _ hfresh

/-- At (or beyond) capacity, `set` first deletes the oldest entry. -/
theorem set_cache_of_full {α : Type} (c : ContextCache α) (q : String) (k : Nat)
    (R : α) (now : Timestamp) (e : String × α × Timestamp)
    (hfull : c.max_size ≤ c.cache.length)
    (he : oldestEntry c.cache = some e) :
    (c.set q k R now).cache
      = insertKey (generate_key q k) (R, now) (eraseKey e.1 c.cache) := by
  simp only [ContextCache.set, hfull, if_true, he]

/-- After any `set` on a cache within its bound (and positive capacity),
the number of entries still does not exceed `max_size`. -/
theorem set_length_le {α : Type} (c : ContextCache α) (q : String) (k : Nat)
    (R : α) (now : Timestamp) (hM : 1 ≤ c.max_size)
    (hle : c.cache.length ≤ c.max_size) :
    (c.set q k R now).cache.length ≤ c.max_size := by
  by_cases hfull : c.max_size ≤ c.cache.length
  · have hne : c.cache ≠ [] := by
      intro h
      rw [h] at hfull
      simp at hfull
      omega
    obtain ⟨e, he⟩ := oldestEntry_isSome c.cache hne
    have hmem : e ∈ c.cache := oldestEntry_mem _ _ he
    have hkey : e.1 ∈ c.cache.map Prod.fst := List.mem_map_of_mem _ hmem
    have herase := length_eraseKey_of_mem e.1 c.cache hkey
    rw [set_cache_of_full c q k R now e hfull he]
    have hins := length_insertKey_le (generate_key q k) (R, now) (eraseKey e.1 c.cache)
    omega
  · have hc : ¬ c.max_size ≤ c.cache.length := hfull
    simp only [ContextCache.set, hc, if_false]
    have hins := length_insertKey_le (generate_key q k) (R, now) c.cache
    omega

/-! ### Behavior of `setAll` -/

theorem setAll_nil {α : Type} (c : ContextCache α) : setAll c [] = c := rfl

theorem setAll_cons {α : Type} (c : ContextCache α) (op : SetCall α)
    (ops : List (SetCall α)) :
    setAll c (op :: ops) = setAll (c.set op.query op.top_k op.results op.now) ops := rfl

theorem setAll_append {α : Type} (c : ContextCache α) (l1 l2 : List (SetCall α)) :
    setAll c (l1 ++ l2) = setAll (setAll c l1) l2 := by
  simp [setAll, List.foldl_append]

theorem setAll_max {α : Type} (ops : List (SetCall α)) :
    ∀ c : ContextCache α, (setAll c ops).max_size = c.max_size := by
  induction ops with
  | nil => intro c; rfl
  | cons op ops ih =>
    intro c
    rw [setAll_cons, ih, set_max]

theorem map_fst_map_entry {α : Type} (l : List (SetCall α)) :
    (l.map SetCall.entry).map Prod.fst = l.map SetCall.key := by
  induction l with
  | nil => rfl
  | cons o l ih => simp [SetCall.entry, ih]

/-- While there is room for all of them, `set` calls with pairwise fresh keys
just append their entries in call order. -/
theorem setAll_fill {α : Type} (ops : List (SetCall α)) :
    ∀ c : ContextCache α,
      c.cache.length + ops.length ≤ c.max_size →
      (ops.map SetCall.key).Nodup →
      (∀ op ∈ ops, SetCall.key op ∉ c.cache.map Prod.fst) →
      (setAll c ops).cache = c.cache ++ ops.map SetCall.entry := by
  induction ops with
  | nil =>
    intro c _ _ _
    simp [setAll]
  | cons op ops ih =>
    intro c hlen hnd hfresh
    rw [setAll_cons]
    have hroom : c.cache.length < c.max_size := by
      simp only [List.length_cons] at hlen
      omega
    have hfr : op.key ∉ c.cache.map Prod.fst := hfresh op (by simp)
    have hset := set_cache_of_room c op.query op.top_k op.results op.now hroom hfr
    simp only [List.map_cons, List.nodup_cons] at hnd
    have h2 := ih (c.set op.query op.top_k op.results op.now) ?_ hnd.2 ?_
    · rw [h2, hset]
      simp [SetCall.entry, SetCall.key]
    · rw [set_max]
      have : (c.set op.query op.top_k op.results op.now).cache.length
          = c.cache.length + 1 := by rw [hset]; simp
      simp only [List.length_cons] at hlen
      omega
    · intro op' hop'
      rw [hset]
      simp only [List.map_append, List.map_cons, List.map_nil, List.mem_append,
        List.mem_singleton]
      push_neg
      refine ⟨fun hmem => hfresh op' (by simp [hop']) hmem, ?_⟩
      intro heq
      have hmem := List.mem_map_of_mem SetCall.key hop'
      rw [heq] at hmem
      exact hnd.1 hmem

theorem lookupKey_isSome_of_mem {α : Type} (key : String) (l : CacheEntries α)
    (h : key ∈ l.map Prod.fst) : ∃ v, lookupKey key l = some v := by
  induction l with
  | nil => simp at h
  | cons e es ih =>
    by_cases he : e.1 = key
    · exact ⟨e.2, by simp [lookupKey, he]⟩
    · simp only [List.map_cons, List.mem_cons] at h
      rcases h with h | h
      · exact absurd h.symm he
      · obtain ⟨v, hv⟩ := ih h
        exact ⟨v, by simp [lookupKey, he, hv]⟩

/-! ### Claims about the cache -/

/-- Claim C2: for every cache with capacity `maxSize = M ≥ 1`, inserting
`M + 1` distinct `(query, k)` keys via `set` (the wall clock being
nondecreasing across the calls, as `datetime.now()` is) leaves exactly `M`
live entries with the single oldest-inserted key absent; and after any
`set` on a within-bound cache the number of entries never exceeds
`max_size`. -/
theorem cache_eviction_bound {α : Type} (ttl : Int) (M : Nat) (hM : 1 ≤ M)
    (op0 : SetCall α) (rest : List (SetCall α))
    (hlen : rest.length = M)
    (hkeys : ((op0 :: rest).map SetCall.key).Nodup)
    (htime : (op0 :: rest).Pairwise (fun a b => a.now ≤ b.now)) :
    (setAll ⟨ttl, M, []⟩ (op0 :: rest)).cache.length = M
    ∧ lookupKey op0.key (setAll ⟨ttl, M, []⟩ (op0 :: rest)).cache = none
    ∧ ∀ (c : ContextCache α) (op : SetCall α), 1 ≤ c.max_size →
        c.cache.length ≤ c.max_size →
        (c.set op.query op.top_k op.results op.now).cache.length ≤ c.max_size := by
  rcases List.eq_nil_or_concat' rest with hnil | ⟨front, last, rfl⟩
  · rw [hnil] at hlen
    simp at hlen
    omega
  have hfl : front.length + 1 = M := by simpa using hlen
  have hnd1 : ((op0 :: front).map SetCall.key).Nodup := by
    have hsub : List.Sublist (op0 :: front) ((op0 :: front) ++ [last]) :=
      List.sublist_append_left _ _
    exact hkeys.sublist (hsub.map _)
  have hfill := setAll_fill (op0 :: front) ⟨ttl, M, []⟩
    (by simp; omega) hnd1 (by simp)
  set cMid := setAll (⟨ttl, M, []⟩ : ContextCache α) (op0 :: front) with hcMid
  have hcache : cMid.cache = SetCall.entry op0 :: front.map SetCall.entry := by
    rw [hfill]
    simp
  have hmaxMid : cMid.max_size = M := setAll_max _ _
  have hfull : cMid.max_size ≤ cMid.cache.length := by
    rw [hmaxMid, hcache]
    simp
    omega
  have htime1 : ∀ b ∈ front ++ [last], op0.now ≤ b.now :=
    (List.pairwise_cons.mp htime).1
  have hold : oldestEntry cMid.cache = some (SetCall.entry op0) := by
    rw [hcache]
    apply oldestEntry_head
    intro x hx
    rcases List.mem_map.mp hx with ⟨op', hop', rfl⟩
    exact htime1 op' (List.mem_append_left _ hop')
  have hset := set_cache_of_full cMid last.query last.top_k last.results last.now
    (SetCall.entry op0) hfull hold
  have herase : eraseKey (SetCall.entry op0).1 cMid.cache = front.map SetCall.entry := by
    rw [hcache]
    simp [eraseKey]
  have hfreshlast : SetCall.key last ∉ (front.map SetCall.entry).map Prod.fst := by
    rw [map_fst_map_entry]
    have h2 : ((front ++ [last]).map SetCall.key).Nodup := (List.nodup_cons.mp hkeys).2
    rw [List.map_append] at h2
    have hdisj := List.disjoint_of_nodup_append h2
    intro hmem
    exact hdisj hmem (by simp)
  have hins : insertKey (generate_key last.query last.top_k)
      (last.results, last.now) (front.map SetCall.entry)
      = front.map SetCall.entry ++ [SetCall.entry last] := by
    have h3 := insertKey_of_not_mem (SetCall.key last) (last.results, last.now)
      (front.map SetCall.entry) hfreshlast
    simpa [SetCall.key, SetCall.entry] using h3
  have hmain : (setAll (⟨ttl, M, []⟩ : ContextCache α) (op0 :: (front ++ [last]))).cache
      = (front ++ [last]).map SetCall.entry := by
    have hsplit : setAll (⟨ttl, M, []⟩ : ContextCache α) ((op0 :: front) ++ [last])
        = setAll cMid [last] := by rw [setAll_append, hcMid]
    calc (setAll (⟨ttl, M, []⟩ : ContextCache α) ((op0 :: front) ++ [last])).cache
        = (cMid.set last.query last.top_k last.results last.now).cache := by
          rw [hsplit]
          rfl
      _ = insertKey (generate_key last.query last.top_k) (last.results, last.now)
            (eraseKey (SetCall.entry op0).1 cMid.cache) := hset
      _ = front.map SetCall.entry ++ [SetCall.entry last] := by rw [herase, hins]
      _ = (front ++ [last]).map SetCall.entry := by simp
  refine ⟨?_, ?_, ?_⟩
  · rw [hmain]
    simp
    omega
  · rw [hmain]
    apply lookupKey_eq_none_of_not_mem
    rw [map_fst_map_entry]
    exact (List.nodup_cons.mp hkeys).1
  · intro c op h1 h2
    exact set_length_le c op.query op.top_k op.results op.now h1 h2

theorem cache_eviction_bound_witness :
    (1 ≤ 1)
    ∧ (setAll (⟨300, 1, []⟩ : ContextCache Nat)
        [⟨"a", 1, 0, 0⟩, ⟨"b", 1, 1, 1⟩]).cache.length = 1
    ∧ lookupKey (SetCall.key (⟨"a", 1, 0, 0⟩ : SetCall Nat))
        (setAll (⟨300, 1, []⟩ : ContextCache Nat)
          [⟨"a", 1, 0, 0⟩, ⟨"b", 1, 1, 1⟩]).cache = none :=
  have h := cache_eviction_bound 300 1 (by decide) (⟨"a", 1, 0, 0⟩ : SetCall Nat)
    [⟨"b", 1, 1, 1⟩] rfl (by decide) (by decide)
  ⟨by decide, h.1, h.2.1⟩

/-- Claim C3: in a cache with positive `ttl`, `get (q, k)` immediately after
`set (q, k, R)` (same instant `now`) is a hit returning `R` unchanged, for
any query `q` and `k ≥ 1`. -/
theorem cache_get_after_set {α : Type} (c : ContextCache α) (q : String) (k : Nat)
    (R : α) (now : Timestamp) (httl : 0 < c.ttl_seconds) (hk : 1 ≤ k) :
    (c.set q k R now).get q k now = (some R, c.set q k R now) := by
  have hlook : lookupKey (generate_key q k) (c.set q k R now).cache = some (R, now) := by
    simp only [ContextCache.set]
    exact lookupKey_insert_self _ _ _
  have hcond : ¬ now - now > (c.set q k R now).ttl_seconds := by
    rw [set_ttl, sub_self]
    exact not_lt.mpr (le_of_lt httl)
  simp only [ContextCache.get, hlook]
  rw [if_neg hcond]

theorem cache_get_after_set_witness :
    (0 : Int) < (300 : Int) ∧ 1 ≤ 3
    ∧ ((⟨300, 50, []⟩ : ContextCache (List Nat)).set "hi" 3 [1, 2] 7).get "hi" 3 7
        = (some [1, 2], (⟨300, 50, []⟩ : ContextCache (List Nat)).set "hi" 3 [1, 2] 7) :=
  ⟨by decide, by decide,
    cache_get_after_set (⟨300, 50, []⟩ : ContextCache (List Nat)) "hi" 3 [1, 2] 7
      (by decide) (by decide)⟩

/-- Claim C4: an entry set at `t0` in a cache with `ttl = T` is a hit
(returning the cached results, cache untouched) whenever `now - t0 ≤ T`,
and a miss whenever `now - t0 > T`; on an expired hit the entry is eagerly
removed from the cache. -/
theorem cache_ttl_expiry {α : Type} (c : ContextCache α) (q : String) (k : Nat)
    (R : α) (t0 now : Timestamp)
    (hnd : (c.cache.map Prod.fst).Nodup)
    (hfound : lookupKey (generate_key q k) c.cache = some (R, t0)) :
    (now - t0 ≤ c.ttl_seconds → c.get q k now = (some R, c))
    ∧ (c.ttl_seconds < now - t0 →
        (c.get q k now).1 = none
        ∧ lookupKey (generate_key q k) ((c.get q k now).2).cache = none) := by
  constructor
  · intro hle
    have hcond : ¬ now - t0 > c.ttl_seconds := not_lt.mpr hle
    simp [ContextCache.get, hfound, hcond]
  · intro hgt
    have hcond : now - t0 > c.ttl_seconds := hgt
    constructor
    · simp [ContextCache.get, hfound, hcond]
    · simp only [ContextCache.get, hfound, hcond, if_true]
      exact lookupKey_eraseKey_self _ _ hnd

theorem cache_ttl_expiry_witness :
    (((⟨10, 50, [("q:2", [5], 100)]⟩ : ContextCache (List Nat)).get "q" 2 111).1 = none)
    ∧ lookupKey (generate_key "q" 2)
        ((((⟨10, 50, [("q:2", [5], 100)]⟩ : ContextCache (List Nat)).get "q" 2 111).2).cache)
        = none :=
  (cache_ttl_expiry (⟨10, 50, [("q:2", [5], 100)]⟩ : ContextCache (List Nat)) "q" 2
    [5] 100 111 (by decide) (by decide)).2 (by decide)

/-- Claim C10: calling `set (q, k, R)` on a cache that already holds exactly
`maxSize` entries, when the fingerprint of `(q, k)` is already live and the
oldest entry carries a different fingerprint, still evicts that oldest
entry and then overwrites in place: afterwards the cache holds only
`maxSize - 1` entries, the oldest key is gone, and `(q, k)` maps to the
new results. -/
theorem overwrite_at_capacity_evicts {α : Type} (c : ContextCache α) (q : String)
    (k : Nat) (R : α) (now : Timestamp) (e0 : String × α × Timestamp)
    (hnd : (c.cache.map Prod.fst).Nodup)
    (hfull : c.cache.length = c.max_size)
    (hM : 1 ≤ c.max_size)
    (hold : oldestEntry c.cache = some e0)
    (hlive : generate_key q k ∈ c.cache.map Prod.fst)
    (hne : e0.1 ≠ generate_key q k) :
    (c.set q k R now).cache.length = c.max_size - 1
    ∧ lookupKey e0.1 (c.set q k R now).cache = none
    ∧ lookupKey (generate_key q k) (c.set q k R now).cache = some (R, now) := by
  have hge : c.max_size ≤ c.cache.length := le_of_eq hfull.symm
  have hset := set_cache_of_full c q k R now e0 hge hold
  have hmem0 : e0 ∈ c.cache := oldestEntry_mem _ _ hold
  have hkey0 : e0.1 ∈ c.cache.map Prod.fst := List.mem_map_of_mem _ hmem0
  have herase := length_eraseKey_of_mem e0.1 c.cache hkey0
  have hlook : lookupKey (generate_key q k) (eraseKey e0.1 c.cache)
      = lookupKey (generate_key q k) c.cache :=
    lookupKey_eraseKey_ne _ _ _ (Ne.symm hne)
  obtain ⟨v, hv⟩ := lookupKey_isSome_of_mem _ _ hlive
  have hmemE : generate_key q k ∈ (eraseKey e0.1 c.cache).map Prod.fst :=
    mem_of_lookupKey_eq_some _ _ v (hlook.trans hv)
  have hinslen := length_insertKey_of_mem (generate_key q k) (R, now) _ hmemE
  refine ⟨?_, ?_, ?_⟩
  · rw [hset, hinslen]
    omega
  · rw [hset, lookupKey_insert_ne _ _ _ _ hne]
    exact lookupKey_eraseKey_self _ _ hnd
  · rw [hset]
    exact lookupKey_insert_self _ _ _

theorem overwrite_at_capacity_evicts_witness :
    ((⟨100, 2, [("a:1", 7, 0), ("b:1", 8, 1)]⟩ : ContextCache Nat).set "b" 1 9 5).cache.length = 1
    ∧ lookupKey "a:1"
        ((⟨100, 2, [("a:1", 7, 0), ("b:1", 8, 1)]⟩ : ContextCache Nat).set "b" 1 9 5).cache = none
    ∧ lookupKey (generate_key "b" 1)
        ((⟨100, 2, [("a:1", 7, 0), ("b:1", 8, 1)]⟩ : ContextCache Nat).set "b" 1 9 5).cache
        = some (9, 5) :=
  overwrite_at_capacity_evicts (⟨100, 2, [("a:1", 7, 0), ("b:1", 8, 1)]⟩ : ContextCache Nat)
    "b" 1 9 5 ("a:1", 7, 0) (by decide) (by decide) (by decide) (by decide) (by decide)
    (by decide)

/-! ## Prompt assembly (rag_engine.py, class RAGEngine)

Python string slicing `s[:n]` is by characters, modelled as `strTake`. -/

/-- Models the Python slice `s[:n]`. -/
def strTake (s : String) (n : Nat) : String := ⟨s.data.take n⟩

theorem strTake_length (s : String) (n : Nat) :
    (strTake s n).length = min n s.length := by
  cases s
  simp only [strTake, String.length, List.length_take]

/-- A retrieved document as consumed by `RAGEngine._format_context`:
`doc.get("metadata", ...)` followed by `.get` with defaults is modelled by
optional fields (a missing metadata dict is all fields absent). -/
structure ContextDoc where
  title : Option String := none
  authors : List String := []
  abstract : Option String := none
  source : Option String := none

/-- Models the body of the loop in `RAGEngine._format_context` for the
`i`-th document (1-based), including the 500-character abstract cap. -/
def formatDoc (i : Nat) (doc : ContextDoc) : String :=
  let title := doc.title.getD "Unknown Title"
  let author_str :=
    if doc.authors.isEmpty then "Unknown Authors" else String.intercalate ", " doc.authors
  let abstract0 := doc.abstract.getD ""
  let abstract :=
    if abstract0.length > 500 then strTake abstract0 500 ++ "..." else abstract0
  let src := doc.source.getD "arxiv"
  "\nPaper " ++ toString i ++ ": " ++ title ++ "\nAuthors: " ++ author_str
    ++ "\nSource: " ++ src ++ "\nAbstract: " ++ abstract ++ "\n"

/-- Models `RAGEngine._format_context`. -/
def format_context (docs : List ContextDoc) : String :=
  if docs.isEmpty then "No relevant context found."
  else String.intercalate "\n"
    ("Relevant Research Papers:" :: docs.enum.map (fun p => formatDoc (p.1 + 1) p.2))

/-- A conversation message as consumed by
`RAGEngine._format_conversation_history` (`msg.get` with defaults
`user` for the role and the empty string for the content). -/
structure ChatMessage where
  role : Option String := none
  content : Option String := none

/-- Models the Python slice `l[-k:]` (for `k = 0` Python yields the whole
list, since `l[-0:] == l[0:]`). -/
def lastN {β : Type} (l : List β) (k : Nat) : List β :=
  if k = 0 then l else l.drop (l.length - k)

/-- Models the per-message rendering in
`RAGEngine._format_conversation_history`; messages whose role is neither
`user` nor `assistant` are skipped. -/
def formatMessage (m : ChatMessage) : Option String :=
  let role := m.role.getD "user"
  let content0 := m.content.getD ""
  let content :=
    if content0.length > 1000 then strTake content0 1000 ++ "... [truncated]" else content0
  if role = "user" then some ("Human: " ++ content)
  else if role = "assistant" then some ("Assistant: " ++ content)
  else none

/-- Models `RAGEngine._format_conversation_history`. -/
def format_conversation_history (context_window : Nat) (history : List ChatMessage) :
    String :=
  if history.isEmpty then ""
  else
    let recent :=
      if history.length > context_window then lastN history context_window else history
    if recent.isEmpty then ""
    else String.intercalate "\n" ("Previous conversation:" :: recent.filterMap formatMessage)

/-- The `+ 500  # 500 for system prompt` constant of `build_rag_prompt`. -/
def systemPromptOverhead : Nat := 500

/-- The `> 3000  # Conservative limit` hard budget of `build_rag_prompt`. -/
def promptHardLimit : Nat := 3000

/-- Models `estimated_length` in `build_rag_prompt`. -/
def estimated_length (q cb hb : String) : Nat :=
  q.length + cb.length + hb.length + systemPromptOverhead

def contextTruncMarker : String := "\n... [context truncated]"

def historyTruncMarker : String := "\n... [history truncated]"

/-- Models `if len(context_section) > 1500: context_section =
context_section[:1500] + "\n... [context truncated]"`. -/
def truncContext (cb : String) : String :=
  if cb.length > 1500 then strTake cb 1500 ++ contextTruncMarker else cb

/-- Models `if len(history_section) > 1000: history_section =
history_section[:1000] + "\n... [history truncated]"`. -/
def truncHistory (hb : String) : String :=
  if hb.length > 1000 then strTake hb 1000 ++ historyTruncMarker else hb

/-- The context/history blocks actually interpolated into the prompt:
lines 180-191 of `rag_engine.py`. -/
def finalBlocks (q cb hb : String) : String × String :=
  if estimated_length q cb hb > promptHardLimit then (truncContext cb, truncHistory hb)
  else (cb, hb)

/-- The fixed leading instructional text of the prompt f-string. -/
def promptPreamble : String :=
  "You are an intelligent research assistant helping users prepare for meetings by providing insights from recent academic papers. You have access to relevant research papers and should provide accurate, well-informed responses based on the provided context."

/-- The fixed trailing instructional text of the prompt f-string. -/
def promptClosing : String :=
  "Please provide a comprehensive and helpful response based on the research papers provided above. If the context doesn\x27t contain enough information to fully answer the question, say so and suggest what additional information might be helpful."

/-- Models `RAGEngine.build_rag_prompt` (with the `context_window` of the engine
passed explicitly). -/
def build_rag_prompt (context_window : Nat) (user_query : String)
    (retrieved_context : List ContextDoc) (conversation_history : List ChatMessage) :
    String :=
  let cb := format_context retrieved_context
  let hb := format_conversation_history context_window conversation_history
  promptPreamble ++ "\n\n" ++ (finalBlocks user_query cb hb).1 ++ "\n\n"
    ++ (finalBlocks user_query cb hb).2 ++ "\n\nCurrent question: " ++ user_query
    ++ ("\n\n" ++ promptClosing)

/-- Claim C5: for every query, retrieved-document list and conversation
history, the prompt built by `build_rag_prompt` contains the literal query
string verbatim (the query is interpolated untouched after
`Current question: `), even when the context and history blocks are
truncated. -/
theorem prompt_contains_query (context_window : Nat) (user_query : String)
    (docs : List ContextDoc) (history : List ChatMessage) :
    ∃ s t, build_rag_prompt context_window user_query docs history
      = s ++ user_query ++ t :=
  ⟨promptPreamble ++ "\n\n"
      ++ (finalBlocks user_query (format_context docs)
            (format_conversation_history context_window history)).1
      ++ "\n\n"
      ++ (finalBlocks user_query (format_context docs)
            (format_conversation_history context_window history)).2
      ++ "\n\nCurrent question: ",
    "\n\n" ++ promptClosing, rfl⟩

/-- Claim C6: when `estimated_length` (query + context block + history
block + the fixed 500-character system-prompt overhead) exceeds the
3000-character hard budget, the context block is cut to at most 1500
characters plus its truncation marker and the history block to at most
1000 characters plus its marker; when the budget is not exceeded both
blocks are interpolated unchanged. -/
theorem prompt_budget_truncation (q cb hb : String) :
    (estimated_length q cb hb ≤ promptHardLimit → finalBlocks q cb hb = (cb, hb))
    ∧ (promptHardLimit < estimated_length q cb hb →
        (finalBlocks q cb hb).1.length ≤ min cb.length 1500 + contextTruncMarker.length
        ∧ (finalBlocks q cb hb).2.length ≤ min hb.length 1000 + historyTruncMarker.length
        ∧ (1500 < cb.length →
            (finalBlocks q cb hb).1 = strTake cb 1500 ++ contextTruncMarker)
        ∧ (cb.length ≤ 1500 → (finalBlocks q cb hb).1 = cb)
        ∧ (1000 < hb.length →
            (finalBlocks q cb hb).2 = strTake hb 1000 ++ historyTruncMarker)
        ∧ (hb.length ≤ 1000 → (finalBlocks q cb hb).2 = hb)) := by
  constructor
  · intro hle
    have hc : ¬ estimated_length q cb hb > promptHardLimit := not_lt.mpr hle
    simp [finalBlocks, hc]
  · intro hgt
    have hc : estimated_length q cb hb > promptHardLimit := hgt
    have hfb : finalBlocks q cb hb = (truncContext cb, truncHistory hb) := by
      simp [finalBlocks, hc]
    rw [hfb]
    refine ⟨?_, ?_, ?_, ?_, ?_, ?_⟩
    · by_cases h1 : cb.length > 1500
      · simp only [truncContext, h1, if_true, String.length_append, strTake_length]
        omega
      · simp only [truncContext, h1, if_false]
        omega
    · by_cases h1 : hb.length > 1000
      · simp only [truncHistory, h1, if_true, String.length_append, strTake_length]
        omega
      · simp only [truncHistory, h1, if_false]
        omega
    · intro h1
      simp [truncContext, h1]
    · intro h1
      have h2 : ¬ cb.length > 1500 := not_lt.mpr h1
      simp [truncContext, h2]
    · intro h1
      simp [truncHistory, h1]
    · intro h1
      have h2 : ¬ hb.length > 1000 := not_lt.mpr h1
      simp [truncHistory, h2]

theorem prompt_budget_truncation_witness :
    (estimated_length "q" "c" "h" ≤ promptHardLimit
      ∧ finalBlocks "q" "c" "h" = ("c", "h")) :=
  ⟨by decide, (prompt_budget_truncation "q" "c" "h").1 (by decide)⟩

/-! ## Vector store (vector_db_populator.py, FAISS flat-index backend) -/

/-- Metadata dicts attached to vectors: either the default
text/index dict built by `populate_from_texts`, or an
opaque caller-supplied dict. -/
inductive Meta where
  | auto (text : String) (index : Nat)
  | user (fields : List (String × String))
deriving DecidableEq

/-- The exceptions the vector-store paths can raise
(`encoderNotReady` models the ImportError raised by the lazy
`initialize_encoder` call when sentence-transformers is unavailable). -/
inductive VdbError where
  | importError
  | notInitialized
  | encoderNotReady
  | valueError
  | indexError
deriving DecidableEq

/-- The exact single-precision maximum `2^128 - 2^104`, the distance the
flat index reports for padded (missing) result slots. -/
def FLT_MAX : Int := 2 ^ 128 - 2 ^ 104

/-- Squared L2 distance (the metric of `faiss.IndexFlatL2`); vector
components are modelled as exact integers since no claim depends on float
rounding. -/
def sqL2 (u v : List Int) : Int :=
  (List.zipWith (fun a b => (a - b) * (a - b)) u v).sum

/-- Stable insertion of a `(distance, label)` pair: earlier-inserted pairs
come first among equal distances. -/
def insertByDist (x : Int × Int) : List (Int × Int) → List (Int × Int)
  | [] => [x]
  | y :: ys => if y.1 ≤ x.1 then y :: insertByDist x ys else x :: y :: ys

/-- Stable ascending sort by distance. -/
def sortByDist (l : List (Int × Int)) : List (Int × Int) :=
  l.foldl (fun acc x => insertByDist x acc) []

structure IndexFlatL2 where
  vectors : List (List Int)
deriving DecidableEq

/-- Modelled from the documented behavior of the external FAISS flat L2
index (`faiss.IndexFlatL2.search`): the `k` smallest squared-L2 distances
with their labels, ascending; when fewer than `k` vectors are stored, the
remaining slots are padded with label `-1` and distance `FLT_MAX`. -/
def IndexFlatL2.search (idx : IndexFlatL2) (query : List Int) (k : Nat) :
    List (Int × Int) :=
  let scored := idx.vectors.enum.map fun p => (sqL2 query p.2, (p.1 : Int))
  let ranked := (sortByDist scored).take k
  ranked ++ List.replicate (k - ranked.length) (FLT_MAX, -1)

/-- A search result dict with id, distance and metadata fields. -/
structure SearchResult where
  id : Int
  distance : Int
  metadata : Meta
deriving DecidableEq

/-- Python list indexing `l[i]`: negative indices count from the end;
outside `[-len, len)` an IndexError is raised (`none`). -/
def pyGet {β : Type} (l : List β) (i : Int) : Option β :=
  if 0 ≤ i then l.get? i.toNat
  else if (-i).toNat ≤ l.length then l.get? (l.length - (-i).toNat) else none

/-- The result-collection loop of `FAISSBackend.search` (lines 139-146):
keeps a pair whenever `idx < len(self.metadata)` — note that a negative
`idx` passes this test, and `self.metadata[idx]` then indexes from the
end. -/
def collectResults (metadata : List Meta) :
    List (Int × Int) → Except VdbError (List SearchResult)
  | [] => .ok []
  | (dist, idx) :: rest =>
    if idx < (metadata.length : Int) then
      match pyGet metadata idx with
      | none => .error .indexError
      | some m => (collectResults metadata rest).map (fun rs => ⟨idx, dist, m⟩ :: rs)
    else collectResults metadata rest

/-- `FAISSBackend.__init__` state: `index` is `None` until initialized. -/
structure FAISSBackend where
  index : Option IndexFlatL2
  metadata : List Meta
  dimension : Option Nat
deriving DecidableEq

/-- The configuration dict, restricted to the key the flat-index backend
reads. -/
structure VdbConfig where
  dimension : Option Nat := none
deriving DecidableEq

/-- Models `FAISSBackend.initialize(config)`; `faissAvailable` models
whether `import faiss` succeeds.  A missing dimension is defaulted:
`config.get` of the dimension key with default 384. -/
def FAISSBackend.initConfig (b : FAISSBackend) (faissAvailable : Bool)
    (config : VdbConfig) : Except VdbError FAISSBackend :=
  if faissAvailable then
    .ok { b with dimension := some (config.dimension.getD 384), index := some ⟨[]⟩ }
  else .error .importError

/-- Models `FAISSBackend.add_vectors`. -/
def FAISSBackend.add_vectors (b : FAISSBackend) (vectors : List (List Int))
    (metadata : List Meta) : Except VdbError FAISSBackend :=
  match b.index with
  | none => .error .notInitialized
  | some idx =>
    .ok { b with index := some ⟨idx.vectors ++ vectors⟩,
                 metadata := b.metadata ++ metadata }

/-- Models `FAISSBackend.search` (lines 131-148). -/
def FAISSBackend.search (b : FAISSBackend) (query : List Int) (top_k : Nat) :
    Except VdbError (List SearchResult) :=
  match b.index with
  | none => .error .notInitialized
  | some idx => collectResults b.metadata (idx.search query top_k)

/-- `VectorDBPopulator` over the flat-index backend; `encoder` is `None`
until `initialize_encoder` runs. -/
structure VectorDBPopulator where
  backend : FAISSBackend
  encoder : Option (String → List Int)

/-- Models `VectorDBPopulator.populate_from_texts`; `stLib` models the
external sentence-transformers library (`none` = the lazy
`initialize_encoder` call raises its ImportError). -/
def populate_from_texts (p : VectorDBPopulator) (stLib : Option (String → List Int))
    (texts : List String) (metadata : Option (List Meta)) :
    Except VdbError VectorDBPopulator :=
  match (match p.encoder with
         | some e => Except.ok (p, e)
         | none =>
           match stLib with
           | some e => Except.ok ({ p with encoder := some e }, e)
           | none => Except.error VdbError.encoderNotReady) with
  | .error err => .error err
  | .ok (p1, enc) =>
    let embeddings := texts.map enc
    match (match metadata with
           | none => Except.ok (texts.enum.map fun pr : Nat × String => Meta.auto pr.2 pr.1)
           | some md =>
             if md.length ≠ texts.length then Except.error VdbError.valueError
             else Except.ok md) with
    | .error err => .error err
    | .ok md =>
      match p1.backend.add_vectors embeddings md with
      | .error err => .error err
      | .ok b2 => .ok { p1 with backend := b2 }

/-- A query to `search_similar`: a text (to be embedded) or a raw vector. -/
inductive VdbQuery where
  | text (s : String)
  | vec (v : List Int)

/-- Models `VectorDBPopulator.search_similar` (lines 234-254). -/
def search_similar (p : VectorDBPopulator) (stLib : Option (String → List Int))
    (query : VdbQuery) (top_k : Nat) : Except VdbError (List SearchResult) :=
  match query with
  | .text s =>
    match p.encoder with
    | some e => p.backend.search (e s) top_k
    | none =>
      match stLib with
      | some e => p.backend.search (e s) top_k
      | none => .error .encoderNotReady
  | .vec v => p.backend.search v top_k

/-- The three-vector store of the spec: `[1,0]`, `[0,1]`, `[1,1]` with metadata
`{id:"a"}`, `{id:"b"}`, `{id:"c"}`. -/
def demoStore : VectorDBPopulator :=
  { backend := { index := some ⟨[[1, 0], [0, 1], [1, 1]]⟩,
                 metadata := [Meta.user [("id", "a")], Meta.user [("id", "b")],
                              Meta.user [("id", "c")]],
                 dimension := some 2 },
    encoder := none }

/-- Claim C1 (failing input): against the three-vector store, a search with
`topK = 4` returns FOUR results, not three: the flat index pads the missing
slot with label `-1` and distance `FLT_MAX`, the guard `idx <
len(self.metadata)` passes for `-1`, and `self.metadata[-1]` silently
yields the metadata of the LAST stored vector — so the padded slot becomes
a phantom result instead of being clamped away. -/
theorem faiss_search_pads_beyond_size :
    search_similar demoStore none (VdbQuery.vec [1, 0]) 4
      = Except.ok [⟨0, 0, Meta.user [("id", "a")]⟩, ⟨2, 1, Meta.user [("id", "c")]⟩,
          ⟨1, 2, Meta.user [("id", "b")]⟩, ⟨-1, FLT_MAX, Meta.user [("id", "c")]⟩]
    ∧ (search_similar demoStore none (VdbQuery.vec [1, 0]) 4).toOption.map List.length
        = some 4 := by
  constructor
  · rfl
  · rfl

/-- `FAISSBackend.__init__`. -/
def freshFAISS : FAISSBackend := ⟨none, [], none⟩

/-- Claim C7 counterexample: with a configuration that does not specify a
vector dimension, `initialize` does NOT fail — it succeeds, defaulting the
dimension to 384. -/
theorem faiss_init_missing_dimension_succeeds :
    freshFAISS.initConfig true {} = Except.ok ⟨some ⟨[]⟩, [], some 384⟩ := rfl

/-- Claim C7 (amended): for the flat-index backend, `initialize(config)`
does not require a dimension: when the configuration lacks one it succeeds
with the default dimension 384 and a fresh empty index; it fails only when
the index library itself is unavailable, with an import error (no
configuration error exists in the code). -/
theorem faiss_init_defaults_dimension (b : FAISSBackend) (config : VdbConfig)
    (h : config.dimension = none) :
    b.initConfig true config
      = Except.ok { b with dimension := some 384, index := some ⟨[]⟩ }
    ∧ ∀ b' : FAISSBackend, b'.initConfig false config = Except.error VdbError.importError := by
  constructor
  · simp [FAISSBackend.initConfig, h]
  · intro b'
    simp [FAISSBackend.initConfig]

theorem faiss_init_defaults_dimension_witness :
    ({} : VdbConfig).dimension = none
    ∧ freshFAISS.initConfig true {}
        = Except.ok { freshFAISS with dimension := some 384, index := some ⟨[]⟩ } :=
  ⟨rfl, (faiss_init_defaults_dimension freshFAISS {} rfl).1⟩

/-- A populator whose backend is initialized but whose encoder is not. -/
def noEncoderPop : VectorDBPopulator := ⟨⟨some ⟨[]⟩, [], some 384⟩, none⟩

/-- Claim C8 counterexample: with no embedding function configured (and the
encoder library importable), `populate_from_texts` does NOT fail — it
lazily initializes the default encoder and succeeds. -/
theorem populate_texts_no_encoder_succeeds :
    ∃ p2, populate_from_texts noEncoderPop (some fun _ => [0]) ["hi"] none
      = Except.ok p2 :=
  ⟨_, rfl⟩

/-- Claim C8 (amended): when no embedding function is configured,
`populate_from_texts` does not fail eagerly: it lazily initializes the
default encoder and proceeds (succeeding whenever the backend is
initialized and metadata is defaulted); the encoder-missing failure occurs
only when the encoder library is unavailable. -/
theorem populate_texts_encoder_fallback (p : VectorDBPopulator)
    (henc : p.encoder = none) (texts : List String) :
    (∀ md, populate_from_texts p none texts md = Except.error VdbError.encoderNotReady)
    ∧ ∀ (e : String → List Int) (idx : IndexFlatL2), p.backend.index = some idx →
        ∃ p2, populate_from_texts p (some e) texts none = Except.ok p2 := by
  constructor
  · intro md
    simp [populate_from_texts, henc]
  · intro e idx hidx
    simp only [populate_from_texts, henc, FAISSBackend.add_vectors, hidx]
    exact ⟨_, rfl⟩

theorem populate_texts_encoder_fallback_witness :
    noEncoderPop.encoder = none
    ∧ populate_from_texts noEncoderPop none ["hi"] none
        = Except.error VdbError.encoderNotReady
    ∧ ∃ p2, populate_from_texts noEncoderPop (some fun _ => [0]) ["hi"] none
        = Except.ok p2 :=
  have h := populate_texts_encoder_fallback noEncoderPop rfl ["hi"]
  ⟨rfl, h.1 none, h.2 (fun _ => [0]) ⟨[]⟩ rfl⟩

/-! ## Session persistence (chat_manager.py) -/

/-- A message dict appended by `ChatSession.add_message`. -/
structure SessionMessage where
  role : String
  content : String
  timestamp : Int
  retrieved_context : List SearchResult

/-- The in-memory `ChatSession` object (timestamps on the integer
timeline). -/
structure ChatSession where
  session_id : String
  topic : Option String
  created_at : Int
  updated_at : Int
  messages : List SessionMessage

/-- Models `datetime.isoformat` (an injective rendering of an instant). -/
def isoformat (t : Int) : String := toString t

/-- The JSON object produced by `ChatSession.to_dict`. -/
structure SessionDict where
  session_id : String
  topic : Option String
  created_at : String
  updated_at : String
  messages : List SessionMessage

/-- Models `ChatSession.to_dict` (pure serialization: reads only). -/
def ChatSession.to_dict (s : ChatSession) : SessionDict :=
  ⟨s.session_id, s.topic, isoformat s.created_at, isoformat s.updated_at, s.messages⟩

/-- The manager state `ChatManager.__init__` sets up (the save directory
itself is outside the model). -/
structure ChatManager where
  auto_save : Bool
  current_session : Option ChatSession

/-- Models `ChatManager.save_session` (lines 169-197); `diskOk` models
whether the `open`/`json.dump` persistence succeeds (`false` = an I/O
error caught by the `except` block).  Returns the reported Bool, the
manager state afterwards, and the payload written on success. -/
def save_session (mgr : ChatManager) (session : Option ChatSession) (diskOk : Bool) :
    Bool × ChatManager × Option SessionDict :=
  let sess := match session with
    | some s => some s
    | none => mgr.current_session
  match sess with
  | none => (false, mgr, none)
  | some s => if diskOk then (true, mgr, some s.to_dict) else (false, mgr, none)

/-- Claim C9: when persisting a session fails with an I/O error,
`save_session` reports failure to the caller (and a `true` report can only
arise from a successful write), and the in-memory state is left unchanged
— `save_session` only reads the session, and the manager comes back
identical. -/
theorem save_session_failure_reported (mgr : ChatManager)
    (session : Option ChatSession) :
    (save_session mgr session false).1 = false
    ∧ (save_session mgr session false).2.1 = mgr
    ∧ ∀ diskOk, (save_session mgr session diskOk).1 = true → diskOk = true := by
  have hfail : (save_session mgr session false).1 = false := by
    unfold save_session
    rcases session with _ | s
    · cases hcs : mgr.current_session <;> simp [hcs]
    · simp
  have hunch : (save_session mgr session false).2.1 = mgr := by
    unfold save_session
    rcases session with _ | s
    · cases hcs : mgr.current_session <;> simp [hcs]
    · simp
  refine ⟨hfail, hunch, ?_⟩
  intro diskOk h
  cases diskOk
  · rw [hfail] at h
    exact absurd h (by decide)
  · rfl

theorem save_session_failure_reported_witness :
    (save_session ⟨true, none⟩ (some ⟨"s", none, 0, 0, []⟩) false).1 = false
    ∧ true = true :=
  have h := save_session_failure_reported ⟨true, none⟩ (some ⟨"s", none, 0, 0, []⟩)
  ⟨h.1, h.2.2 true rfl⟩

end RagSpec
